import Mathlib

/-!
Verification of the MNIST ingestion / partition / evaluation pipeline
(`mnist.go` and its second observed variant).

The pipeline is shallowly embedded: pure Go functions become Lean
functions, the stateful pieces become explicit state passing, slices
become lists, `float64` values become rationals, and out-of-range slice
indexing (a runtime panic in Go) becomes `Option.none`.
-/

namespace LayerForgeLab

/-- One saved intermediate layer state (opaque to this pipeline; the
external learning engine is the only writer). -/
structure LayerState where
  id : Nat
deriving DecidableEq

/-- Embedding of `blueprint.TrainingSession`: input variables (the single
"input" slot holding the flattened normalized pixel vector), the
expected-output map (keys `class_0` .. `class_9`), the saved layer
states (empty at creation) and the learned flag. -/
structure TrainingSession where
  inputVariables : List ℚ
  expectedOutput : List (String × ℚ)
  savedLayerStates : List LayerState
  learned : Bool
deriving DecidableEq

/-- Key `class_i` used in the expected-output map, from
`fmt.Sprintf("class_%d", i)` in `createTrainingSession`. -/
def classKey (i : Nat) : String := "class_" ++ toString i

/-- The one-hot expected-output map built by the loop at
`mnist.go:185-191`: for `i` in `0..9`, entry `class_i` is `1.0` when
`i == int(label)` and `0.0` otherwise. -/
def expectedOutputFor (label : Nat) : List (String × ℚ) :=
  (List.range 10).map (fun i => (classKey i, if i = label then 1 else 0))

/-- Pixel normalization at `mnist.go:196`: `float64(pixel) / 255.0`.
Every pixel byte is divided by the same constant divisor. -/
def normalizePixel (pixel : Nat) : ℚ := (pixel : ℚ) / 255

/-- The session value built at `mnist.go:205-210` once the label and the
image bytes have been fetched. -/
def buildSession (label : Nat) (image : List Nat) : TrainingSession :=
  { inputVariables := image.map normalizePixel
    expectedOutput := expectedOutputFor label
    savedLayerStates := []
    learned := false }

/-- Embedding of `createTrainingSession` (`mnist.go:181-211`).  The Go
code indexes `Labels[index]` and `Images[index]` without a bounds check;
an out-of-range access panics, which the embedding renders as `none`. -/
def createTrainingSession (Images : List (List Nat)) (Labels : List Nat)
    (index : Nat) : Option TrainingSession :=
  match Labels.get? index, Images.get? index with
  | some label, some image => some (buildSession label image)
  | _, _ => none

/-- Split index computed at `mnist.go:149`:
`int(float64(totalImages) * 0.8)`.  For every dataset size below `10^12`
the double-precision product truncates to exactly `floor(0.8 * n)`, so
the embedding uses the exact natural-number form `n * 4 / 5`. -/
def splitIndex (totalImages : Nat) : Nat := totalImages * 4 / 5

/-- Shared shape of the two session loops at `mnist.go:157-164` and
`mnist.go:167-173`.  Starting at index `i` with `remaining` iterations
left before the loop bound (`remaining = bound - i`), each iteration
appends the current index and then breaks if `i >= 100`.  Returns the
sequence of indices the loop processes. -/
def loopFrom : Nat → Nat → List Nat
  | _, 0 => []
  | i, remaining + 1 => if 100 ≤ i then [i] else i :: loopFrom (i + 1) remaining

/-- Indices processed by the training loop (`mnist.go:157-164`):
`i` from `0` while `i < splitIndex`, breaking after appending once
`i >= 100`. -/
def trainIndices (total : Nat) : List Nat := loopFrom 0 (splitIndex total)

/-- Indices processed by the testing loop (`mnist.go:167-173`):
`i` from `splitIndex` while `i < totalImages`, breaking after appending
once `i >= 100`. -/
def testIndices (total : Nat) : List Nat :=
  loopFrom (splitIndex total) (total - splitIndex total)

/-- Builds the sessions for a list of indices in order, failing (as the
Go code would panic) on the first out-of-range access. -/
def buildSessionsOpt (Images : List (List Nat)) (Labels : List Nat) :
    List Nat → Option (List TrainingSession)
  | [] => some []
  | i :: rest => do
    let s ← createTrainingSession Images Labels i
    let restSessions ← buildSessionsOpt Images Labels rest
    return s :: restSessions

/-- Embedding of `setupModelTrainingSession` (`mnist.go:144-178`):
computes the split index from `len(Images)`, then runs the two capped
loops, producing the training and testing session sequences. -/
def setupModelTrainingSession (Images : List (List Nat)) (Labels : List Nat) :
    Option (List TrainingSession × List TrainingSession) := do
  let totalImages := Images.length
  let train ← buildSessionsOpt Images Labels (trainIndices totalImages)
  let test ← buildSessionsOpt Images Labels (testIndices totalImages)
  return (train, test)

/-- The four compressed archive names listed in `EnsureMNISTDownloads`
(`mnist.go:76-81`). -/
def mnistGzFiles : List String :=
  ["train-images-idx3-ubyte.gz", "train-labels-idx1-ubyte.gz",
   "t10k-images-idx3-ubyte.gz", "t10k-labels-idx1-ubyte.gz"]

/-- Name of the decompressed archive obtained by stripping the `.gz`
suffix, matching what `bp.UnzipFile` produces in place. -/
def stripGz (s : String) : String := s.dropRight 3

/-- Result of the acquisition loop: the filesystem afterwards, the
archives fetched over the network (in order), and the archives handed to
the decompressor (in order). -/
structure AcquisitionResult where
  fs : List String
  downloads : List String
  unzips : List String
deriving DecidableEq

/-- Loop body of `EnsureMNISTDownloads` (`mnist.go:83-99`) over the
remaining archive list.  The local filesystem is a list of present file
names.  The Go code calls `os.Stat(localFile)` on the compressed name
`file` itself: when that file is absent it downloads it and then unzips
it (`bp.DownloadFile` / `bp.UnzipFile` are external transport
collaborators, modelled as succeeding and as creating the compressed and
the decompressed file respectively); when it is present the archive is
skipped entirely — no download, no unzip. -/
def ensureLoop (fs : List String) : List String → AcquisitionResult
  | [] => { fs := fs, downloads := [], unzips := [] }
  | file :: rest =>
    if file ∈ fs then ensureLoop fs rest
    else
      let afterUnzip := file :: stripGz file :: fs
      let result := ensureLoop afterUnzip rest
      { fs := result.fs
        downloads := file :: result.downloads
        unzips := file :: result.unzips }

/-- Embedding of `EnsureMNISTDownloads` (`mnist.go:74-101`): runs the
acquisition loop over the four required archives. -/
def EnsureMNISTDownloads (fs : List String) : AcquisitionResult :=
  ensureLoop fs mnistGzFiles

/-- Outcome of `LoadMNIST`: either the run is terminated by
`log.Fatalf`, or execution continues with the image and label stores
that ended up in the globals `Images` and `Labels`. -/
inductive LoadOutcome where
  | fatal : String → LoadOutcome
  | ok : List (List Nat) → List Nat → LoadOutcome
deriving DecidableEq

/-- Embedding of `LoadMNIST` (`mnist.go:103-114`), parameterized by the
results of the two external decoder calls.  An image-decode failure hits
`log.Fatalf` and terminates the run.  A label-decode failure reaches
only `fmt.Errorf`, which builds an error value that is immediately
discarded: execution continues normally with the label store left empty
(the `nil` slice the failed call returned). -/
def LoadMNIST (imagesResult : Except String (List (List Nat)))
    (labelsResult : Except String (List Nat)) : LoadOutcome :=
  match imagesResult with
  | .error e => .fatal ("failed to load training images: " ++ e)
  | .ok imgs =>
    match labelsResult with
    | .error _ => .ok imgs []
    | .ok lbls => .ok imgs lbls

/-- Observable effect performed by `mnistSetup` (`mnist.go:37-71`). -/
inductive SetupEffect where
  | mkdir : String → SetupEffect
  | download : String → SetupEffect
  | readArchive : String → SetupEffect
  | writeImagesAndManifest : String → SetupEffect
deriving DecidableEq

/-- Effects of `LoadMNIST` (`mnist.go:103-114`): it reads the two
original decompressed training archives. -/
def loadMNISTEffects : List SetupEffect :=
  [SetupEffect.readArchive "train-images-idx3-ubyte",
   SetupEffect.readArchive "train-labels-idx1-ubyte"]

/-- Effect trace of `mnistSetup` (`mnist.go:37-71`) as a function of
whether the manifest data file `./host/MNIST/mnist_data.json` already
exists and of the current filesystem contents.  When the manifest
exists, the function prints a message, calls `LoadMNIST` and returns
(`mnist.go:44-48`); otherwise it creates the image directory, runs the
acquisition loop, loads the archives, and materializes the per-sample
images plus the manifest. -/
def mnistSetupEffects (manifestExists : Bool) (fs : List String) :
    List SetupEffect :=
  if manifestExists then
    loadMNISTEffects
  else
    SetupEffect.mkdir "./host/MNIST/images" ::
      ((EnsureMNISTDownloads fs).downloads.map SetupEffect.download ++
        loadMNISTEffects ++
        [SetupEffect.writeImagesAndManifest "./host/MNIST/mnist_data.json"])

/-- Six-value result of one call to the external evaluator
`bp.EvaluateModelPerformance` (§4.6 of the design): exact accuracy,
generous accuracy, forgiveness accuracy, exact error count, average
generous error, forgiveness error count. -/
structure MetricResult where
  exactAccuracy : ℚ
  generousAccuracy : ℚ
  forgivenessAccuracy : ℚ
  exactErrorCount : ℚ
  averageGenerousError : ℚ
  forgivenessErrorCount : ℚ
deriving DecidableEq

/-- Modelled from the spec: the `bp.Config.Metadata` container of the
external blueprint engine is not part of this repository; per §6 it
holds the neuron/layer totals, the forgiveness threshold, the
bias/weight adjustment increments, the twelve last-run metric fields of
§3 (six per evaluated set) and the two stored session lists. -/
structure ModelMetadata where
  totalNeurons : Nat
  totalLayers : Nat
  forgivenessThreshold : ℚ
  biasAdjustmentIncrement : ℚ
  weightAdjustmentIncrement : ℚ
  lastTrainingAccuracy : ℚ
  lastTestAccuracy : ℚ
  lastTrainingAccuracyGenerous : ℚ
  lastTestAccuracyGenerous : ℚ
  lastTrainingAccuracyForgiveness : ℚ
  lastTestAccuracyForgiveness : ℚ
  lastTrainingExactErrorCount : ℚ
  lastTestExactErrorCount : ℚ
  lastTrainingAverageGenerousError : ℚ
  lastTestAverageGenerousError : ℚ
  lastTrainingForgivenessErrorCount : ℚ
  lastTestForgivenessErrorCount : ℚ
  trainingSessions : List TrainingSession
  testingSessions : List TrainingSession

/-- Program state visible to `evaluateModelPerformance`: the run-wide
metadata record plus the two global session slices. -/
structure PipelineState where
  metadata : ModelMetadata
  trainingSessions : List TrainingSession
  testingSessions : List TrainingSession

/-- Embedding of `evaluateModelPerformance` (`mnist.go:213-251`),
parameterized by the external evaluator `bp.EvaluateModelPerformance`.
It evaluates the training and testing session lists, then assigns the
metadata fields exactly as lines 233-248 do: the two exact accuracies,
the testing generous and forgiveness accuracies, the six error metrics,
and the two session lists.  The training generous and forgiveness
accuracies are printed but never assigned to metadata, and the sessions
themselves are read, never written. -/
def evaluateModelPerformance (evalPerf : List TrainingSession → MetricResult)
    (st : PipelineState) : PipelineState :=
  let tr := evalPerf st.trainingSessions
  let te := evalPerf st.testingSessions
  { st with
    metadata := { st.metadata with
      lastTrainingAccuracy := tr.exactAccuracy
      lastTestAccuracy := te.exactAccuracy
      lastTestAccuracyGenerous := te.generousAccuracy
      lastTestAccuracyForgiveness := te.forgivenessAccuracy
      lastTrainingExactErrorCount := tr.exactErrorCount
      lastTestExactErrorCount := te.exactErrorCount
      lastTrainingAverageGenerousError := tr.averageGenerousError
      lastTestAverageGenerousError := te.averageGenerousError
      lastTrainingForgivenessErrorCount := tr.forgivenessErrorCount
      lastTestForgivenessErrorCount := te.forgivenessErrorCount
      trainingSessions := st.trainingSessions
      testingSessions := st.testingSessions } }

/-! Helper lemmas about the capped loops and session building. -/

theorem loopFrom_no_break : ∀ (r i : Nat), i + r ≤ 101 →
    loopFrom i r = List.range' i r := by
  intro r
  induction r with
  | zero => intro i _; rfl
  | succ r ih =>
    intro i h
    by_cases hc : 100 ≤ i
    · have hi : i = 100 := by omega
      have hr : r = 0 := by omega
      subst hi; subst hr
      rfl
    · rw [List.range'_succ]
      simp only [loopFrom, if_neg hc]
      exact congrArg (i :: ·) (ih (i + 1) (by omega))

theorem loopFrom_mem : ∀ (r i j : Nat), j ∈ loopFrom i r →
    i ≤ j ∧ j < i + r ∧ j ≤ max i 100 := by
  intro r
  induction r with
  | zero => intro i j h; simp [loopFrom] at h
  | succ r ih =>
    intro i j h
    by_cases hc : 100 ≤ i
    · simp only [loopFrom, if_pos hc, List.mem_singleton] at h
      omega
    · simp only [loopFrom, if_neg hc, List.mem_cons] at h
      rcases h with h | h
      · omega
      · have := ih (i + 1) j h
        omega

theorem loopFrom_length : ∀ (r i : Nat),
    (loopFrom i r).length = min r (max i 100 + 1 - i) := by
  intro r
  induction r with
  | zero => intro i; simp [loopFrom]
  | succ r ih =>
    intro i
    by_cases hc : 100 ≤ i
    · simp only [loopFrom, if_pos hc, List.length_singleton]
      omega
    · simp only [loopFrom, if_neg hc, List.length_cons, ih (i + 1)]
      omega

theorem createTrainingSession_eq {Images : List (List Nat)} {Labels : List Nat}
    {index label : Nat} {image : List Nat}
    (hL : Labels.get? index = some label) (hI : Images.get? index = some image) :
    createTrainingSession Images Labels index = some (buildSession label image) := by
  rw [List.get?_eq_getElem?] at hL hI
  simp [createTrainingSession, hL, hI]

theorem createTrainingSession_isSome {Images : List (List Nat)} {Labels : List Nat}
    {index : Nat} (h1 : index < Labels.length) (h2 : index < Images.length) :
    ∃ s, createTrainingSession Images Labels index = some s :=
  ⟨_, createTrainingSession_eq (List.get?_eq_get h1) (List.get?_eq_get h2)⟩

theorem buildSessionsOpt_all_some {Images : List (List Nat)} {Labels : List Nat} :
    ∀ (l : List Nat), (∀ i ∈ l, i < Labels.length ∧ i < Images.length) →
      ∃ out, buildSessionsOpt Images Labels l = some out ∧ out.length = l.length := by
  intro l
  induction l with
  | nil => exact fun _ => ⟨[], rfl, rfl⟩
  | cons a l ih =>
    intro h
    obtain ⟨hL, hI⟩ := h a (List.mem_cons_self a l)
    obtain ⟨s, hs⟩ := createTrainingSession_isSome hL hI
    obtain ⟨out, hout, hlen⟩ := ih (fun i hi => h i (List.mem_cons_of_mem a hi))
    refine ⟨s :: out, ?_, by simp [hlen]⟩
    simp [buildSessionsOpt, hs, hout]

theorem buildSessionsOpt_append (Images : List (List Nat)) (Labels : List Nat) :
    ∀ (l₁ l₂ : List Nat),
      buildSessionsOpt Images Labels (l₁ ++ l₂) =
        (buildSessionsOpt Images Labels l₁).bind
          (fun a => (buildSessionsOpt Images Labels l₂).map (fun b => a ++ b)) := by
  intro l₁ l₂
  induction l₁ with
  | nil =>
    cases hb : buildSessionsOpt Images Labels l₂ <;> simp [buildSessionsOpt, hb]
  | cons a l₁ ih =>
    simp only [List.cons_append, buildSessionsOpt, List.append_eq]
    rw [ih]
    cases hc : createTrainingSession Images Labels a with
    | none => simp
    | some s =>
      cases h1 : buildSessionsOpt Images Labels l₁ with
      | none => simp
      | some out1 =>
        cases h2 : buildSessionsOpt Images Labels l₂ with
        | none => simp
        | some out2 => simp

theorem ensureLoop_subset : ∀ (files fs : List String) (f : String),
    f ∈ fs → f ∈ (ensureLoop fs files).fs := by
  intro files
  induction files with
  | nil => intro fs f hf; exact hf
  | cons file rest ih =>
    intro fs f hf
    by_cases hmem : file ∈ fs
    · simp only [ensureLoop, if_pos hmem]
      exact ih fs f hf
    · simp only [ensureLoop, if_neg hmem]
      exact ih _ f (List.mem_cons_of_mem _ (List.mem_cons_of_mem _ hf))

theorem ensureLoop_post : ∀ (files fs : List String) (f : String),
    f ∈ files → f ∈ (ensureLoop fs files).fs := by
  intro files
  induction files with
  | nil => intro fs f hf; simp at hf
  | cons file rest ih =>
    intro fs f hf
    by_cases hmem : file ∈ fs
    · simp only [ensureLoop, if_pos hmem]
      rcases List.mem_cons.mp hf with h | h
      · exact ensureLoop_subset rest fs f (h ▸ hmem)
      · exact ih fs f h
    · simp only [ensureLoop, if_neg hmem]
      rcases List.mem_cons.mp hf with h | h
      · exact ensureLoop_subset rest _ f (h ▸ List.mem_cons_self _ _)
      · exact ih _ f h

theorem ensureLoop_skip : ∀ (files fs : List String),
    (∀ f ∈ files, f ∈ fs) →
      ensureLoop fs files = { fs := fs, downloads := [], unzips := [] } := by
  intro files
  induction files with
  | nil => intro fs _; rfl
  | cons file rest ih =>
    intro fs h
    have hmem : file ∈ fs := h file (List.mem_cons_self _ _)
    simp only [ensureLoop, if_pos hmem]
    exact ih fs (fun f hf => h f (List.mem_cons_of_mem _ hf))

theorem ensureLoop_downloads_eq_unzips : ∀ (files fs : List String),
    (ensureLoop fs files).downloads = (ensureLoop fs files).unzips := by
  intro files
  induction files with
  | nil => intro fs; rfl
  | cons file rest ih =>
    intro fs
    by_cases hmem : file ∈ fs
    · simp only [ensureLoop, if_pos hmem]
      exact ih fs
    · simp only [ensureLoop, if_neg hmem]
      exact congrArg (file :: ·) (ih _)

theorem ensureLoop_not_downloaded : ∀ (files fs : List String) (f : String),
    f ∈ fs → f ∉ (ensureLoop fs files).downloads := by
  intro files
  induction files with
  | nil => intro fs f _ h; simp [ensureLoop] at h
  | cons file rest ih =>
    intro fs f hf
    by_cases hmem : file ∈ fs
    · simp only [ensureLoop, if_pos hmem]
      exact ih fs f hf
    · simp only [ensureLoop, if_neg hmem, List.mem_cons, not_or]
      constructor
      · intro hef
        exact hmem (hef ▸ hf)
      · exact ih _ f (List.mem_cons_of_mem _ (List.mem_cons_of_mem _ hf))

theorem ensureLoop_absent : ∀ (files fs : List String) (f : String),
    (∀ g ∈ files, stripGz g ∉ files) → f ∈ files → f ∉ fs →
      f ∈ (ensureLoop fs files).downloads ∧
        stripGz f ∈ (ensureLoop fs files).fs := by
  intro files
  induction files with
  | nil => intro fs f _ hf; simp at hf
  | cons file rest ih =>
    intro fs f hdisj hf hfs
    have hdisj' : ∀ g ∈ rest, stripGz g ∉ rest := by
      intro g hg hsg
      exact hdisj g (List.mem_cons_of_mem _ hg) (List.mem_cons_of_mem _ hsg)
    by_cases hef : f = file
    · subst hef
      simp only [ensureLoop, if_neg hfs, List.mem_cons]
      refine ⟨by simp, ?_⟩
      exact ensureLoop_subset rest _ _
        (List.mem_cons_of_mem _ (List.mem_cons_self _ _))
    · have hfr : f ∈ rest := by
        rcases List.mem_cons.mp hf with h | h
        · exact absurd h hef
        · exact h
      by_cases hmem : file ∈ fs
      · simp only [ensureLoop, if_pos hmem]
        exact ih fs f hdisj' hfr hfs
      · have hfstrip : f ≠ stripGz file := by
          intro h
          exact hdisj file (List.mem_cons_self _ _) (h ▸ hf)
        have hnot : f ∉ file :: stripGz file :: fs := by
          simp only [List.mem_cons, not_or]
          exact ⟨hef, hfstrip, hfs⟩
        simp only [ensureLoop, if_neg hmem, List.mem_cons]
        obtain ⟨h1, h2⟩ := ih _ f hdisj' hfr hnot
        exact ⟨Or.inr h1, h2⟩

theorem ensureLoop_downloads_sublist : ∀ (files fs : List String),
    (ensureLoop fs files).downloads.Sublist files := by
  intro files
  induction files with
  | nil => intro fs; exact List.Sublist.refl _
  | cons file rest ih =>
    intro fs
    by_cases hmem : file ∈ fs
    · simp only [ensureLoop, if_pos hmem]
      exact List.Sublist.cons _ (ih fs)
    · simp only [ensureLoop, if_neg hmem]
      exact List.Sublist.cons₂ _ (ih _)

theorem expectedOutputFor_onehot (label : Nat) (h : label ≤ 9) :
    (expectedOutputFor label).countP (fun p => p.2 == (1 : ℚ)) = 1 ∧
    (expectedOutputFor label).countP (fun p => p.2 == (0 : ℚ)) = 9 ∧
    (classKey label, (1 : ℚ)) ∈ expectedOutputFor label := by
  interval_cases label <;> decide

/-! Claim theorems. -/

/-- C2 (code_bug): the spec requires a label-decode failure to be fatal,
matching the image-decode handling, but `LoadMNIST` (`mnist.go:110-113`)
discards the error built by `fmt.Errorf` and continues with an empty
label store, while an image-decode failure at `mnist.go:106-108` does
terminate the run via `log.Fatalf`. -/
theorem label_decode_error_swallowed :
    LoadMNIST (Except.ok [[5]]) (Except.error "label archive truncated") =
      LoadOutcome.ok [[5]] [] ∧
    LoadMNIST (Except.error "image archive truncated") (Except.ok [5]) =
      LoadOutcome.fatal
        ("failed to load training images: " ++ "image archive truncated") :=
  ⟨rfl, rfl⟩

/-- C6 (confirmed): for a label byte `L ≤ 9`, the expected-output map of
the session built by `createTrainingSession` has exactly one entry equal
to `1.0`, at the key for class `L`, and the other nine entries equal
`0.0`. -/
theorem one_hot_correct (Images : List (List Nat)) (Labels : List Nat)
    (index label : Nat) (hL : Labels.get? index = some label)
    (hI : index < Images.length) (hlab : label ≤ 9) :
    ∃ s, createTrainingSession Images Labels index = some s ∧
      s.expectedOutput.countP (fun p => p.2 == (1 : ℚ)) = 1 ∧
      s.expectedOutput.countP (fun p => p.2 == (0 : ℚ)) = 9 ∧
      (classKey label, (1 : ℚ)) ∈ s.expectedOutput := by
  obtain ⟨image, hImg⟩ : ∃ img, Images.get? index = some img :=
    ⟨_, List.get?_eq_get hI⟩
  refine ⟨buildSession label image, createTrainingSession_eq hL hImg, ?_⟩
  simpa [buildSession] using expectedOutputFor_onehot label hlab

theorem one_hot_correct_witness :
    ∃ s, createTrainingSession [[0]] [3] 0 = some s ∧
      s.expectedOutput.countP (fun p => p.2 == (1 : ℚ)) = 1 ∧
      s.expectedOutput.countP (fun p => p.2 == (0 : ℚ)) = 9 ∧
      (classKey 3, (1 : ℚ)) ∈ s.expectedOutput :=
  one_hot_correct [[0]] [3] 0 3 rfl (by decide) (by decide)

/-- C9 (confirmed): for a label byte `L > 9` the expected-output map
still has exactly the ten keys `class_0` .. `class_9`, but every entry
is `0.0` and none is `1.0` — the one-hot guarantee needs `L ≤ 9`,
which `createTrainingSession` never checks. -/
theorem out_of_range_label_all_zero (Images : List (List Nat)) (Labels : List Nat)
    (index label : Nat) (hL : Labels.get? index = some label)
    (hI : index < Images.length) (hlab : 9 < label) :
    ∃ s, createTrainingSession Images Labels index = some s ∧
      s.expectedOutput.map Prod.fst = (List.range 10).map classKey ∧
      (∀ p ∈ s.expectedOutput, p.2 = 0) ∧
      (∀ p ∈ s.expectedOutput, p.2 ≠ 1) := by
  obtain ⟨image, hImg⟩ : ∃ img, Images.get? index = some img :=
    ⟨_, List.get?_eq_get hI⟩
  have hzero : ∀ p ∈ (buildSession label image).expectedOutput, p.2 = (0 : ℚ) := by
    intro p hp
    simp only [buildSession, expectedOutputFor, List.mem_map, List.mem_range] at hp
    obtain ⟨i, hi, rfl⟩ := hp
    have : i ≠ label := by omega
    simp [this]
  refine ⟨buildSession label image, createTrainingSession_eq hL hImg, ?_, hzero, ?_⟩
  · simp [buildSession, expectedOutputFor, List.map_map, Function.comp]
  · intro p hp
    rw [hzero p hp]
    norm_num

theorem out_of_range_label_all_zero_witness :
    ∃ s, createTrainingSession [[0]] [10] 0 = some s ∧
      s.expectedOutput.map Prod.fst = (List.range 10).map classKey ∧
      (∀ p ∈ s.expectedOutput, p.2 = 0) ∧
      (∀ p ∈ s.expectedOutput, p.2 ≠ 1) :=
  out_of_range_label_all_zero [[0]] [10] 0 10 rfl (by decide) (by decide)

/-- C7 (confirmed): `createTrainingSession` divides every pixel byte by
the constant `255.0`; every normalized entry lies in `[0, 1]`, pixel `0`
maps to exactly `0.0` and pixel `255` to exactly `1.0`. -/
theorem normalization_bounds (Images : List (List Nat)) (Labels : List Nat)
    (index : Nat) (image : List Nat)
    (hI : Images.get? index = some image) (hLidx : index < Labels.length)
    (hpix : ∀ p ∈ image, p ≤ 255) :
    ∃ s, createTrainingSession Images Labels index = some s ∧
      s.inputVariables = image.map normalizePixel ∧
      (∀ v ∈ s.inputVariables, 0 ≤ v ∧ v ≤ 1) ∧
      normalizePixel 0 = 0 ∧ normalizePixel 255 = 1 := by
  obtain ⟨label, hL⟩ : ∃ l, Labels.get? index = some l :=
    ⟨_, List.get?_eq_get hLidx⟩
  refine ⟨buildSession label image, createTrainingSession_eq hL hI, rfl, ?_,
    by norm_num [normalizePixel], by norm_num [normalizePixel]⟩
  intro v hv
  simp only [buildSession, List.mem_map] at hv
  obtain ⟨p, hp, rfl⟩ := hv
  constructor
  · unfold normalizePixel
    positivity
  · rw [normalizePixel, div_le_one (by norm_num)]
    exact_mod_cast hpix p hp

theorem normalization_bounds_witness :
    ∃ s, createTrainingSession [[0, 255]] [7] 0 = some s ∧
      s.inputVariables = [0, 255].map normalizePixel ∧
      (∀ v ∈ s.inputVariables, 0 ≤ v ∧ v ≤ 1) ∧
      normalizePixel 0 = 0 ∧ normalizePixel 255 = 1 :=
  normalization_bounds [[0, 255]] [7] 0 [0, 255] rfl (by decide) (by decide)

/-- C8 (confirmed): whenever the manifest data file already exists,
`mnistSetup` performs no download, creates no directory and writes no
image files or manifest: its effect trace is exactly the two reads of
the original decompressed archives done by `LoadMNIST`, whatever the
rest of the filesystem contains. -/
theorem cache_short_circuit (fs : List String) :
    mnistSetupEffects true fs = loadMNISTEffects ∧
    (mnistSetupEffects true fs).all
      (fun e => match e with
        | SetupEffect.readArchive _ => true
        | _ => false) = true :=
  ⟨rfl, rfl⟩

theorem cache_short_circuit_witness :
    mnistSetupEffects true ["mnist_data.json"] = loadMNISTEffects :=
  (cache_short_circuit ["mnist_data.json"]).1

/-- C10 (confirmed): under the precondition `len(Images) ≤ len(Labels)`
every `Images[index]` and `Labels[index]` access made while building the
sessions is in bounds, so `setupModelTrainingSession` never hits its
out-of-range branch; without the precondition a store with two images
and one label makes the access `Labels[1]` go out of range. -/
theorem session_indexing_safe :
    (∀ (Images : List (List Nat)) (Labels : List Nat),
        Images.length ≤ Labels.length →
        (setupModelTrainingSession Images Labels).isSome = true) ∧
    setupModelTrainingSession [[0], [0]] [0] = none := by
  constructor
  · intro Images Labels hlen
    have hsplit : splitIndex Images.length ≤ Images.length := by
      unfold splitIndex; omega
    have hbtr : ∀ i ∈ trainIndices Images.length,
        i < Labels.length ∧ i < Images.length := by
      intro i hi
      unfold trainIndices at hi
      have := loopFrom_mem _ _ _ hi
      omega
    have hbte : ∀ i ∈ testIndices Images.length,
        i < Labels.length ∧ i < Images.length := by
      intro i hi
      unfold testIndices at hi
      have := loopFrom_mem _ _ _ hi
      omega
    obtain ⟨train, htrain, _⟩ := buildSessionsOpt_all_some _ hbtr
    obtain ⟨test, htest, _⟩ := buildSessionsOpt_all_some _ hbte
    simp [setupModelTrainingSession, htrain, htest]
  · rfl

theorem session_indexing_safe_witness :
    (setupModelTrainingSession [[0]] [0]).isSome = true :=
  session_indexing_safe.1 [[0]] [0] (by decide)

set_option maxRecDepth 100000 in
/-- C1 counterexample: on a 102-sample store the hardcoded `i >= 100`
breaks in both loops leave 81 training and 20 testing sessions, so
`len(train) + len(test) = 101 ≠ 102` and the concatenation cannot
reproduce the full sample sequence. -/
theorem partition_identity_fails_at_102 :
    (setupModelTrainingSession (List.replicate 102 ([] : List Nat))
        (List.replicate 102 0)).map (fun p => (p.1.length, p.2.length)) =
      some (81, 20) ∧
    81 + 20 ≠ 102 := by
  exact ⟨rfl, by decide⟩

/-- C1 (corrected): the partition identity holds for every loaded store
of at most 101 samples — split index `floor(0.8 × total)`, samples
`[0, split)` in order to training, `[split, total)` in order to testing,
disjoint index ranges, `len(train) + len(test) = total`, and the
concatenation in split order rebuilding the sessions of the full sample
sequence.  Beyond 101 samples the hardcoded cap truncates both loops. -/
theorem partition_correct_upto_cap (Images : List (List Nat)) (Labels : List Nat)
    (hlen : Labels.length = Images.length) (hcap : Images.length ≤ 101) :
    ∃ train test,
      setupModelTrainingSession Images Labels = some (train, test) ∧
      trainIndices Images.length =
        List.range' 0 (splitIndex Images.length) ∧
      testIndices Images.length =
        List.range' (splitIndex Images.length)
          (Images.length - splitIndex Images.length) ∧
      train.length = splitIndex Images.length ∧
      test.length = Images.length - splitIndex Images.length ∧
      train.length + test.length = Images.length ∧
      List.Disjoint (trainIndices Images.length) (testIndices Images.length) ∧
      buildSessionsOpt Images Labels (List.range Images.length) =
        some (train ++ test) := by
  have hsplit : splitIndex Images.length ≤ Images.length := by
    unfold splitIndex; omega
  have hsplit101 : splitIndex Images.length ≤ 101 := le_trans hsplit hcap
  have htr_eq : trainIndices Images.length =
      List.range' 0 (splitIndex Images.length) :=
    loopFrom_no_break _ _ (by omega)
  have hte_eq : testIndices Images.length =
      List.range' (splitIndex Images.length)
        (Images.length - splitIndex Images.length) :=
    loopFrom_no_break _ _ (by omega)
  have hbtr : ∀ i ∈ trainIndices Images.length,
      i < Labels.length ∧ i < Images.length := by
    intro i hi
    unfold trainIndices at hi
    have := loopFrom_mem _ _ _ hi
    omega
  have hbte : ∀ i ∈ testIndices Images.length,
      i < Labels.length ∧ i < Images.length := by
    intro i hi
    unfold testIndices at hi
    have := loopFrom_mem _ _ _ hi
    omega
  obtain ⟨train, htrain, htrlen⟩ := buildSessionsOpt_all_some _ hbtr
  obtain ⟨test, htest, htelen⟩ := buildSessionsOpt_all_some _ hbte
  have htrlen' : train.length = splitIndex Images.length := by
    rw [htrlen, htr_eq, List.length_range']
  have htelen' : test.length = Images.length - splitIndex Images.length := by
    rw [htelen, hte_eq, List.length_range']
  have hrange : List.range Images.length =
      trainIndices Images.length ++ testIndices Images.length := by
    have happ := List.range'_append_1 0 (splitIndex Images.length)
      (Images.length - splitIndex Images.length)
    rw [Nat.zero_add] at happ
    rw [htr_eq, hte_eq, List.range_eq_range', happ]
    congr 1
    omega
  refine ⟨train, test, ?_, htr_eq, hte_eq, htrlen', htelen', by omega, ?_, ?_⟩
  · simp [setupModelTrainingSession, htrain, htest]
  · intro a ha hb
    unfold trainIndices at ha
    unfold testIndices at hb
    have h1 := loopFrom_mem _ _ _ ha
    have h2 := loopFrom_mem _ _ _ hb
    omega
  · rw [hrange, buildSessionsOpt_append, htrain, htest]
    rfl

theorem partition_correct_upto_cap_witness :
    ∃ train test,
      setupModelTrainingSession [[1], [2], [3], [4], [5]] [1, 2, 3, 4, 5] =
        some (train, test) ∧
      trainIndices 5 = List.range' 0 (splitIndex 5) ∧
      testIndices 5 = List.range' (splitIndex 5) (5 - splitIndex 5) ∧
      train.length = splitIndex 5 ∧
      test.length = 5 - splitIndex 5 ∧
      train.length + test.length = 5 ∧
      List.Disjoint (trainIndices 5) (testIndices 5) ∧
      buildSessionsOpt [[1], [2], [3], [4], [5]] [1, 2, 3, 4, 5]
        (List.range 5) = some (train ++ test) :=
  partition_correct_upto_cap [[1], [2], [3], [4], [5]] [1, 2, 3, 4, 5]
    rfl (by decide)

/-- C5 counterexample: on a 127-sample store the split index is 101, and
the testing loop retains index 101, which exceeds the cap bound
`K = 100` — the cap does not restrict each subset to indices `≤ K`. -/
theorem cap_test_subset_index_exceeds_100 :
    testIndices 127 = [101] ∧ ¬(101 ≤ 100) :=
  ⟨rfl, by decide⟩

/-- C5 (corrected): with the hardcoded cap `K = 100`, each subset holds
at most `K + 1 = 101` sessions and the truncation is silent
(`setupModelTrainingSession` always succeeds on an aligned store of any
size); the training subset retains only indices `≤ K`, but the testing
subset starts at the split index and so retains only indices
`≤ max(split_index, K)` — its first index exceeds `K` whenever
`split_index > K`. -/
theorem cap_partition_bounded (Images : List (List Nat)) (Labels : List Nat)
    (hlen : Labels.length = Images.length) :
    ∃ train test,
      setupModelTrainingSession Images Labels = some (train, test) ∧
      train.length ≤ 101 ∧ test.length ≤ 101 ∧
      (∀ i ∈ trainIndices Images.length, i ≤ 100) ∧
      (∀ i ∈ testIndices Images.length,
        splitIndex Images.length ≤ i ∧
          i ≤ max (splitIndex Images.length) 100) := by
  have hsplit : splitIndex Images.length ≤ Images.length := by
    unfold splitIndex; omega
  have hbtr : ∀ i ∈ trainIndices Images.length,
      i < Labels.length ∧ i < Images.length := by
    intro i hi
    unfold trainIndices at hi
    have := loopFrom_mem _ _ _ hi
    omega
  have hbte : ∀ i ∈ testIndices Images.length,
      i < Labels.length ∧ i < Images.length := by
    intro i hi
    unfold testIndices at hi
    have := loopFrom_mem _ _ _ hi
    omega
  obtain ⟨train, htrain, htrlen⟩ := buildSessionsOpt_all_some _ hbtr
  obtain ⟨test, htest, htelen⟩ := buildSessionsOpt_all_some _ hbte
  refine ⟨train, test, ?_, ?_, ?_, ?_, ?_⟩
  · simp [setupModelTrainingSession, htrain, htest]
  · rw [htrlen]
    unfold trainIndices
    rw [loopFrom_length]
    omega
  · rw [htelen]
    unfold testIndices
    rw [loopFrom_length]
    omega
  · intro i hi
    unfold trainIndices at hi
    have := loopFrom_mem _ _ _ hi
    omega
  · intro i hi
    unfold testIndices at hi
    have := loopFrom_mem _ _ _ hi
    omega

theorem cap_partition_bounded_witness :
    ∃ train test,
      setupModelTrainingSession [[4]] [4] = some (train, test) ∧
      train.length ≤ 101 ∧ test.length ≤ 101 ∧
      (∀ i ∈ trainIndices 1, i ≤ 100) ∧
      (∀ i ∈ testIndices 1,
        splitIndex 1 ≤ i ∧ i ≤ max (splitIndex 1) 100) :=
  cap_partition_bounded [[4]] [4] rfl

/-- C3 counterexample: with all four decompressed archives pre-seeded
but no `.gz` files present, `EnsureMNISTDownloads` fetches all four
archives again — the skip check at `mnist.go:85` stats the compressed
name, not the decompressed one, so pre-seeded decompressed files do not
yield zero network calls. -/
theorem acquisition_refetches_despite_decompressed :
    (EnsureMNISTDownloads
        ["train-images-idx3-ubyte", "train-labels-idx1-ubyte",
         "t10k-images-idx3-ubyte", "t10k-labels-idx1-ubyte"]).downloads =
      ["train-images-idx3-ubyte.gz", "train-labels-idx1-ubyte.gz",
       "t10k-images-idx3-ubyte.gz", "t10k-labels-idx1-ubyte.gz"] ∧
    (["train-images-idx3-ubyte.gz", "train-labels-idx1-ubyte.gz",
      "t10k-images-idx3-ubyte.gz", "t10k-labels-idx1-ubyte.gz"] : List String) ≠
      [] :=
  ⟨rfl, List.cons_ne_nil _ _⟩

/-- C3 (corrected): the skip of `EnsureMNISTDownloads` is keyed, archive
by archive, on the compressed file: on any filesystem, an archive whose
`.gz` file is present is neither fetched nor decompressed, while an
archive whose `.gz` file is absent is fetched (at most once: the fetch
list has no duplicates) and decompressed, its decompressed file present
on return; every fetch is paired with the matching decompress; on return
every `.gz` file is present, so a second call immediately after performs
zero network calls. -/
theorem acquisition_skip_per_archive (fs : List String) :
    (∀ f ∈ mnistGzFiles, f ∈ fs →
      f ∉ (EnsureMNISTDownloads fs).downloads ∧
        f ∉ (EnsureMNISTDownloads fs).unzips) ∧
    (∀ f ∈ mnistGzFiles, f ∉ fs →
      f ∈ (EnsureMNISTDownloads fs).downloads ∧
        f ∈ (EnsureMNISTDownloads fs).unzips ∧
        stripGz f ∈ (EnsureMNISTDownloads fs).fs) ∧
    (EnsureMNISTDownloads fs).downloads = (EnsureMNISTDownloads fs).unzips ∧
    (EnsureMNISTDownloads fs).downloads.Nodup ∧
    (∀ f ∈ mnistGzFiles, f ∈ (EnsureMNISTDownloads fs).fs) ∧
    (EnsureMNISTDownloads (EnsureMNISTDownloads fs).fs).downloads = [] := by
  have hdu := ensureLoop_downloads_eq_unzips mnistGzFiles fs
  refine ⟨?_, ?_, hdu, ?_, ?_, ?_⟩
  · intro f _ hfs
    have hnd := ensureLoop_not_downloaded mnistGzFiles fs f hfs
    exact ⟨hnd, fun h => hnd (hdu ▸ h)⟩
  · intro f hf hfs
    obtain ⟨h1, h2⟩ := ensureLoop_absent mnistGzFiles fs f (by decide) hf hfs
    exact ⟨h1, hdu ▸ h1, h2⟩
  · exact List.Nodup.sublist (ensureLoop_downloads_sublist mnistGzFiles fs)
      (by decide)
  · intro f hf
    exact ensureLoop_post _ _ _ hf
  · unfold EnsureMNISTDownloads
    rw [ensureLoop_skip _ _ (fun f hf => ensureLoop_post _ _ _ hf)]

theorem acquisition_skip_per_archive_witness :
    "train-images-idx3-ubyte.gz" ∉
      (EnsureMNISTDownloads
        ["train-images-idx3-ubyte.gz", "t10k-images-idx3-ubyte"]).downloads ∧
    "train-images-idx3-ubyte.gz" ∉
      (EnsureMNISTDownloads
        ["train-images-idx3-ubyte.gz", "t10k-images-idx3-ubyte"]).unzips ∧
    "t10k-images-idx3-ubyte.gz" ∈
      (EnsureMNISTDownloads
        ["train-images-idx3-ubyte.gz", "t10k-images-idx3-ubyte"]).downloads ∧
    stripGz "t10k-images-idx3-ubyte.gz" ∈
      (EnsureMNISTDownloads
        ["train-images-idx3-ubyte.gz", "t10k-images-idx3-ubyte"]).fs :=
  ⟨((acquisition_skip_per_archive
        ["train-images-idx3-ubyte.gz", "t10k-images-idx3-ubyte"]).1
      "train-images-idx3-ubyte.gz" (by decide) (by decide)).1,
   ((acquisition_skip_per_archive
        ["train-images-idx3-ubyte.gz", "t10k-images-idx3-ubyte"]).1
      "train-images-idx3-ubyte.gz" (by decide) (by decide)).2,
   ((acquisition_skip_per_archive
        ["train-images-idx3-ubyte.gz", "t10k-images-idx3-ubyte"]).2.1
      "t10k-images-idx3-ubyte.gz" (by decide) (by decide)).1,
   ((acquisition_skip_per_archive
        ["train-images-idx3-ubyte.gz", "t10k-images-idx3-ubyte"]).2.1
      "t10k-images-idx3-ubyte.gz" (by decide) (by decide)).2.2⟩

/-- Metadata record with every metric field set to the sentinel value 42
and no stored sessions, used to observe which fields
`evaluateModelPerformance` actually writes. -/
def mdInit : ModelMetadata :=
  { totalNeurons := 0
    totalLayers := 0
    forgivenessThreshold := 42
    biasAdjustmentIncrement := 42
    weightAdjustmentIncrement := 42
    lastTrainingAccuracy := 42
    lastTestAccuracy := 42
    lastTrainingAccuracyGenerous := 42
    lastTestAccuracyGenerous := 42
    lastTrainingAccuracyForgiveness := 42
    lastTestAccuracyForgiveness := 42
    lastTrainingExactErrorCount := 42
    lastTestExactErrorCount := 42
    lastTrainingAverageGenerousError := 42
    lastTestAverageGenerousError := 42
    lastTrainingForgivenessErrorCount := 42
    lastTestForgivenessErrorCount := 42
    trainingSessions := []
    testingSessions := [] }

/-- Pipeline state holding `mdInit` and empty session lists. -/
def stInit : PipelineState :=
  { metadata := mdInit, trainingSessions := [], testingSessions := [] }

/-- External evaluator stub returning 7 for all six metric values. -/
def constMetric : List TrainingSession → MetricResult :=
  fun _ => ⟨7, 7, 7, 7, 7, 7⟩

/-- C4 counterexample: the generous accuracy of the training set (7 here) is
computed and printed but never persisted — after
`evaluateModelPerformance` the corresponding metadata field still holds
its old value 42, so only ten metric fields are written, not twelve. -/
theorem training_generous_accuracy_not_persisted :
    (constMetric stInit.trainingSessions).generousAccuracy = 7 ∧
    (evaluateModelPerformance constMetric stInit).metadata.lastTrainingAccuracyGenerous = 42 ∧
    (42 : ℚ) ≠ 7 :=
  ⟨rfl, rfl, by norm_num⟩

/-- C4 (corrected): `evaluateModelPerformance` writes ten metric fields
— exact accuracy of both sets, generous and forgiveness accuracy of the
testing set only, and all six error metrics — plus the two session
lists, into the metadata record; the generous and forgiveness
accuracies of the training set are left untouched, and the sessions
themselves are never written. -/
theorem evaluator_persists_ten_fields
    (evalPerf : List TrainingSession → MetricResult) (st : PipelineState) :
    (evaluateModelPerformance evalPerf st).trainingSessions =
      st.trainingSessions ∧
    (evaluateModelPerformance evalPerf st).testingSessions =
      st.testingSessions ∧
    (evaluateModelPerformance evalPerf st).metadata.lastTrainingAccuracy =
      (evalPerf st.trainingSessions).exactAccuracy ∧
    (evaluateModelPerformance evalPerf st).metadata.lastTestAccuracy =
      (evalPerf st.testingSessions).exactAccuracy ∧
    (evaluateModelPerformance evalPerf st).metadata.lastTestAccuracyGenerous =
      (evalPerf st.testingSessions).generousAccuracy ∧
    (evaluateModelPerformance evalPerf st).metadata.lastTestAccuracyForgiveness =
      (evalPerf st.testingSessions).forgivenessAccuracy ∧
    (evaluateModelPerformance evalPerf st).metadata.lastTrainingExactErrorCount =
      (evalPerf st.trainingSessions).exactErrorCount ∧
    (evaluateModelPerformance evalPerf st).metadata.lastTestExactErrorCount =
      (evalPerf st.testingSessions).exactErrorCount ∧
    (evaluateModelPerformance evalPerf st).metadata.lastTrainingAverageGenerousError =
      (evalPerf st.trainingSessions).averageGenerousError ∧
    (evaluateModelPerformance evalPerf st).metadata.lastTestAverageGenerousError =
      (evalPerf st.testingSessions).averageGenerousError ∧
    (evaluateModelPerformance evalPerf st).metadata.lastTrainingForgivenessErrorCount =
      (evalPerf st.trainingSessions).forgivenessErrorCount ∧
    (evaluateModelPerformance evalPerf st).metadata.lastTestForgivenessErrorCount =
      (evalPerf st.testingSessions).forgivenessErrorCount ∧
    (evaluateModelPerformance evalPerf st).metadata.trainingSessions =
      st.trainingSessions ∧
    (evaluateModelPerformance evalPerf st).metadata.testingSessions =
      st.testingSessions ∧
    (evaluateModelPerformance evalPerf st).metadata.lastTrainingAccuracyGenerous =
      st.metadata.lastTrainingAccuracyGenerous ∧
    (evaluateModelPerformance evalPerf st).metadata.lastTrainingAccuracyForgiveness =
      st.metadata.lastTrainingAccuracyForgiveness ∧
    (evaluateModelPerformance evalPerf st).metadata.forgivenessThreshold =
      st.metadata.forgivenessThreshold :=
  ⟨rfl, rfl, rfl, rfl, rfl, rfl, rfl, rfl, rfl, rfl, rfl, rfl, rfl, rfl,
    rfl, rfl, rfl⟩

theorem evaluator_persists_ten_fields_witness :
    (evaluateModelPerformance constMetric stInit).testingSessions =
      stInit.testingSessions :=
  (evaluator_persists_ten_fields constMetric stInit).2.1

end LayerForgeLab
